import Mathlib

/-!
# Verification of the nomi-chatgpt-speak polling / bridge core

Shallow embedding of the message-processing pipeline of
`supabase/functions/poll-nomi-messages/index.ts`, the per-room actions of
`supabase/functions/nomi-chatgpt-bridge/index.ts`, and the UI poll step of
`Index.tsx` (`pollNomiMessages`).  Message text is embedded as `List Char`;
remote ids and names as `String`.  Network and database outcomes (AI call,
send, insert, remote fetches) are passed in explicitly as environment
parameters, so each handler is a pure function of its inputs.
-/

set_option autoImplicit false

namespace NomiSpeak

/-! ## JavaScript string primitives on `List Char` -/

/-- Model of `String.prototype.trim`: drop whitespace from both ends. -/
def jsTrim (s : List Char) : List Char :=
  ((s.dropWhile Char.isWhitespace).reverse.dropWhile Char.isWhitespace).reverse

/-- Model of `String.prototype.endsWith` for a single-character suffix. -/
def endsWithChar (s : List Char) (c : Char) : Bool :=
  s.getLast? == some c

/-- Model of `String.prototype.lastIndexOf` for a single character: the
greatest index at which `c` occurs, or `-1` when it does not occur. -/
def lastIndexOf : List Char → Char → Int
  | [], _ => -1
  | a :: rest, c =>
    if 0 ≤ lastIndexOf rest c then lastIndexOf rest c + 1
    else if a = c then 0
    else -1

/-! ## `trimToLastPunctuation` (poll-nomi-messages/index.ts, lines 13-30) -/

/-- The `punctuationMarks` array of `trimToLastPunctuation`. -/
def punctuationMarks : List Char := ['.', '!', '?', ';', ':', ',']

/-- The scan loop of `trimToLastPunctuation`: starting from `-1`, keep the
largest `truncated.lastIndexOf(mark)` over the punctuation marks. -/
def maxPunctIndex (truncated : List Char) : Int :=
  punctuationMarks.foldl (fun best m => max best (lastIndexOf truncated m)) (-1)

/-- Embedding of `trimToLastPunctuation(text, maxLength = MAX_MESSAGE_LENGTH)`:
return `text` unchanged when its length is within `maxLength`; otherwise
truncate to `maxLength` characters and, when the last punctuation mark of the
truncated prefix sits at a strictly positive index, cut just after that mark. -/
def trimToLastPunctuation (text : List Char) (maxLength : Nat) : List Char :=
  if text.length ≤ maxLength then text
  else
    let truncated := text.take maxLength
    let lastPunctuationIndex := maxPunctIndex truncated
    if lastPunctuationIndex > 0 then truncated.take (lastPunctuationIndex.toNat + 1)
    else truncated

/-- Observation used in specifications: position `i` of `l` holds a
sentence-terminating punctuation mark. -/
def punctAt (l : List Char) (i : Nat) : Bool :=
  match l[i]? with
  | some c => punctuationMarks.contains c
  | none => false

/-! ## The per-message processing step of `poll-nomi-messages/index.ts`

The body of the inner `for (const message of messagesData.messages)` loop
(lines 116-240).  The outcomes of the external calls made inside the loop
body (Lovable AI completion, Nomi send, Supabase insert) are supplied by a
`PollEnv`; the Supabase `nomi_messages` table is the `List Record` state. -/

/-- A Nomi as listed by `GET /v1/nomis` (fields used by the loop). -/
structure NomiInfo where
  uuid : String
  name : String
deriving DecidableEq, Repr

/-- A message of `messagesData.messages` (fields used by the loop):
`sent` is the origin tag (the loop only processes `sent === "nomi"`),
`text` is the raw message text. -/
structure RemoteMessage where
  sent : String
  text : List Char
deriving DecidableEq, Repr

/-- A row of the `nomi_messages` table as inserted by the poll pass. -/
structure Record where
  nomi_uuid : String
  nomi_name : String
  question : Option (List Char)
  answer : Option (List Char)
  message_text : List Char
  message_type : String
deriving DecidableEq, Repr

/-- The dedup lookup (lines 119-126): `select ... where nomi_uuid = uuid and
message_text = text limit 1` has a non-empty result. -/
def dedupExists (db : List Record) (uuid : String) (text : List Char) : Bool :=
  db.any (fun r => r.nomi_uuid == uuid && r.message_text == text)

/-- Outcomes of the external calls made by one loop iteration:
`aiResult` is the Lovable AI completion (`none` models a non-ok HTTP
response), `sendOk` the Nomi send response status, `insertOk` the absence of
a Supabase insert error. -/
structure PollEnv where
  aiResult : Option (List Char)
  sendOk : Bool
  insertOk : Bool
deriving DecidableEq, Repr

/-- Externally visible effects of one loop iteration: number of AI calls,
texts sent to the Nomi, and rows successfully inserted. -/
structure Effects where
  aiCalls : Nat
  sends : List (List Char)
  inserted : List Record
deriving DecidableEq, Repr

/-- No effect at all. -/
def noEffects : Effects := ⟨0, [], []⟩

/-- The classification test of line 133:
`message.text && message.text.trim().endsWith("?")`. -/
def isQuestion (text : List Char) : Bool :=
  !text.isEmpty && endsWithChar (jsTrim text) '?'

/-- One iteration of the message loop (lines 116-240): skip non-Nomi
messages; skip messages already recorded under the `(nomi_uuid,
message_text)` dedup key; for questions call the AI, send the trimmed answer
and insert a `chatgpt` row only if the send succeeded; for everything else
insert a `regular` row without sending anything.  Returns the new table
state and the effects of the iteration. -/
def processMessage (env : PollEnv) (db : List Record) (nomi : NomiInfo)
    (msg : RemoteMessage) : List Record × Effects :=
  if msg.sent ≠ "nomi" then (db, noEffects)
  else if dedupExists db nomi.uuid msg.text then (db, noEffects)
  else if isQuestion msg.text then
    match env.aiResult with
    | none => (db, ⟨1, [], []⟩)
    | some rawAnswer =>
      let answer := trimToLastPunctuation rawAnswer 800
      if env.sendOk then
        let row : Record := ⟨nomi.uuid, nomi.name, some msg.text, some answer,
          msg.text, "chatgpt"⟩
        if env.insertOk then (db ++ [row], ⟨1, [answer], [row]⟩)
        else (db, ⟨1, [answer], []⟩)
      else (db, ⟨1, [answer], []⟩)
  else
    let row : Record := ⟨nomi.uuid, nomi.name, none, none, msg.text, "regular"⟩
    if env.insertOk then (db ++ [row], ⟨0, [], [row]⟩)
    else (db, noEffects)

/-! ## The UI poll step of `Index.tsx` (`pollNomiMessages`, non-question
branch, lines 244-264) -/

/-- The fixed prompt of the UI non-question branch. -/
def askPrompt : List Char := "Ask me a question".toList

/-- The `message_type` computation of `saveMessageToDB`:
`message.answer ? "ai_response" : "regular"` (JavaScript truthiness: an
absent or empty answer counts as false). -/
def uiMessageType (answer : Option (List Char)) : String :=
  match answer with
  | none => "regular"
  | some a => if a.isEmpty then "regular" else "ai_response"

/-- The row built by `saveMessageToDB` from a UI `Message`: note that
`question` is always set to the message text. -/
def uiSaveRecord (nomi : NomiInfo) (text : List Char) (answer : Option (List Char)) :
    Record :=
  ⟨nomi.uuid, nomi.name, some text, answer, text, uiMessageType answer⟩

/-- The non-question branch of `pollNomiMessages` (lines 244-264): invoke
`send-message` with the fixed prompt (the result is not inspected), then
save a row whose `answer` is the prompt.  Returns the sent text and the
saved row. -/
def uiNonQuestionStep (nomi : NomiInfo) (text : List Char) : List Char × Record :=
  (askPrompt, uiSaveRecord nomi text (some askPrompt))

/-! ## Inner-monologue stripping

Modelled from the spec: no stripping code exists anywhere under the
repository source; the spec describes a classification that first strips
text delimited by single asterisks (but not double-asterisk bold markup).
The state machine below realizes that description and exists only to be
compared against the code's classifier. -/

/-- Modelled from the spec: scanning state machine for single-asterisk
stripping.  The flag records whether the scan is inside a monologue span;
a double asterisk is kept verbatim. -/
def stripAux : Bool → List Char → List Char
  | _, [] => []
  | false, '*' :: '*' :: rest => '*' :: '*' :: stripAux false rest
  | false, '*' :: rest => stripAux true rest
  | false, c :: rest => c :: stripAux false rest
  | true, '*' :: rest => stripAux false rest
  | true, _ :: rest => stripAux true rest

/-- Modelled from the spec: strip inner-monologue markup (text delimited by
single asterisks, but not double-asterisk bold markup). -/
def stripInnerMonologue (s : List Char) : List Char :=
  stripAux false s

/-- Modelled from the spec: the classification the spec describes — a
message is a question iff its stripped text, trimmed of surrounding
whitespace, ends with a question mark. -/
def specIsQuestion (text : List Char) : Bool :=
  endsWithChar (jsTrim (stripInnerMonologue text)) '?'

/-- The 850-character sample of the truncation claim: 779 letters, a full
stop, then 70 more letters, so the only punctuation mark of the
800-character prefix sits at index 779 (the 780th character). -/
def sample850 : List Char := List.replicate 779 'a' ++ '.' :: List.replicate 70 'b'

end NomiSpeak

namespace NomiSpeak
namespace Bridge

/-! ## The room actions of `nomi-chatgpt-bridge/index.ts`

The remote Nomi room API is not part of this repository; following the
spec's description of it as an opaque collaborator, it is modelled as a
list of rooms plus a fresh-id counter: `DELETE /v1/rooms/:id` removes the
room, `POST /v1/rooms` creates a room under a fresh id.  The handler logic
itself (member filtering, last-member check, delete-then-recreate order) is
embedded from the source. -/

/-- A remote room (fields used by the handlers): id, name, backchanneling
flag, optional note, and the member Nomi uuids. -/
structure Room where
  uuid : Nat
  name : String
  backchannelingEnabled : Bool
  note : Option String
  nomis : List String
deriving DecidableEq, Repr

/-- Modelled from the spec: the remote room store, a list of rooms plus a
counter from which fresh room ids are assigned. -/
structure RemoteState where
  rooms : List Room
  nextId : Nat
deriving DecidableEq, Repr

/-- The room lookup of the handlers:
`roomsData.rooms?.find(r => r.uuid === roomId)`. -/
def findRoom (s : RemoteState) (roomId : Nat) : Option Room :=
  s.rooms.find? (fun r => r.uuid == roomId)

/-- Modelled from the spec: remote `DELETE /v1/rooms/:id` removes the room
with that id. -/
def remoteDeleteRoom (s : RemoteState) (roomId : Nat) : RemoteState :=
  ⟨s.rooms.filter (fun r => r.uuid ≠ roomId), s.nextId⟩

/-- Modelled from the spec: remote `POST /v1/rooms` creates a room with the
requested name, flag, note and members under a fresh id. -/
def remoteCreateRoom (s : RemoteState) (name : String) (flag : Bool)
    (note : Option String) (members : List String) : Room × RemoteState :=
  let room : Room := ⟨s.nextId, name, flag, note, members⟩
  (room, ⟨s.rooms ++ [room], s.nextId + 1⟩)

/-- Result of the `remove-nomi-from-room` action: success with the
recreated room, 404 room-not-found, 400 cannot-remove-last-member, or a
5xx from a failing remote delete or create step. -/
inductive RemoveResult where
  | ok (newRoom : Room)
  | errRoomNotFound
  | errLastNomi
  | errDeleteFailed
  | errCreateFailed
deriving DecidableEq, Repr

/-- Outcomes of the two remote mutation calls made by
`remove-nomi-from-room`. -/
structure RemoveEnv where
  deleteOk : Bool
  createOk : Bool
deriving DecidableEq, Repr

/-- The `remove-nomi-from-room` handler (lines 273-377): find the room,
filter the removed uuid out of the member list, refuse when that would
leave no member, delete the remote room and recreate it under a new id with
the remaining members and identical name/flag (note defaulted when
absent). -/
def removeNomiFromRoom (env : RemoveEnv) (s : RemoteState) (roomId : Nat)
    (nomiUuid : String) : RemoveResult × RemoteState :=
  match findRoom s roomId with
  | none => (RemoveResult.errRoomNotFound, s)
  | some room =>
    let remainingNomiUuids := room.nomis.filter (fun u => u ≠ nomiUuid)
    if remainingNomiUuids.isEmpty then (RemoveResult.errLastNomi, s)
    else if !env.deleteOk then (RemoveResult.errDeleteFailed, s)
    else
      let s1 := remoteDeleteRoom s roomId
      if !env.createOk then (RemoveResult.errCreateFailed, s1)
      else
        let created := remoteCreateRoom s1 room.name room.backchannelingEnabled
          (some (room.note.getD "Inquisitorium room for automated Q&A"))
          remainingNomiUuids
        (RemoveResult.ok created.1, created.2)

/-! ## The `send-message` action (lines 517-573) -/

/-- Outcome of one upstream HTTP call as seen by the handler: the ok flag,
the status code, and the response body text. -/
structure HttpResp where
  ok : Bool
  status : Nat
  body : String
deriving DecidableEq, Repr

/-- The JSON response of the `send-message` handler (fields present in the
failure shape; a success carries none of the upstream fields). -/
structure SendMessageResponse where
  success : Bool
  reason : Option String
  upstreamStatus : Option Nat
  upstreamBody : Option String
deriving DecidableEq, Repr

/-- The `send-message` handler given the outcomes of the primary
(room-addressed) and fallback (direct-nomi) sends: succeed on either ok;
when both fail, answer `upstream_error` with the fallback call's status and
body. -/
def sendMessageHandler (primary fallback : HttpResp) : SendMessageResponse :=
  if primary.ok then ⟨true, none, none, none⟩
  else if fallback.ok then ⟨true, none, none, none⟩
  else ⟨false, some "upstream_error", some fallback.status, some fallback.body⟩

/-! ## The `get-room-messages` action (lines 380-425) -/

/-- Outcome of one upstream history fetch: the ok flag and the decoded
message list (`data.messages || []`). -/
structure FetchOutcome where
  ok : Bool
  messages : List String
deriving DecidableEq, Repr

/-- The JSON response of the `get-room-messages` handler; `status` is the
HTTP status of the response (every path of the handler answers 200). -/
structure RoomMessagesResponse where
  status : Nat
  messages : List String
deriving DecidableEq, Repr

/-- The `get-room-messages` handler given the outcomes of the primary
(`/messages`) and fallback (`/chat`) endpoints: use the primary when ok,
fall back otherwise, and degrade to an empty list when both fail. -/
def getRoomMessagesHandler (primary fallback : FetchOutcome) : RoomMessagesResponse :=
  if primary.ok then ⟨200, primary.messages⟩
  else if fallback.ok then ⟨200, fallback.messages⟩
  else ⟨200, []⟩

end Bridge
end NomiSpeak

namespace NomiSpeak

/-! ### Characterization of `lastIndexOf` and `maxPunctIndex` -/

theorem neg_one_le_lastIndexOf (l : List Char) (c : Char) : -1 ≤ lastIndexOf l c := by
  induction l with
  | nil => simp [lastIndexOf]
  | cons a rest ih =>
    simp only [lastIndexOf]
    split
    · omega
    · split <;> omega

theorem le_lastIndexOf_of_getElem? (l : List Char) (c : Char) (i : Nat)
    (h : l[i]? = some c) : (i : Int) ≤ lastIndexOf l c := by
  induction l generalizing i with
  | nil => simp at h
  | cons a rest ih =>
    simp only [lastIndexOf]
    cases i with
    | zero =>
      simp only [List.getElem?_cons_zero, Option.some.injEq] at h
      subst h
      split
      · omega
      · rw [if_pos rfl]; omega
    | succ j =>
      simp only [List.getElem?_cons_succ] at h
      have hj := ih j h
      have h0 : 0 ≤ lastIndexOf rest c := le_trans (by omega) hj
      rw [if_pos h0]
      push_cast
      omega

theorem lastIndexOf_getElem? (l : List Char) (c : Char)
    (h : lastIndexOf l c ≠ -1) :
    ∃ i : Nat, lastIndexOf l c = (i : Int) ∧ l[i]? = some c := by
  induction l with
  | nil => simp [lastIndexOf] at h
  | cons a rest ih =>
    by_cases hr : 0 ≤ lastIndexOf rest c
    · have hne : lastIndexOf rest c ≠ -1 := by omega
      obtain ⟨i, hi, hget⟩ := ih hne
      refine ⟨i + 1, ?_, by simpa using hget⟩
      simp only [lastIndexOf]
      rw [if_pos hr, hi]
      push_cast
      omega
    · by_cases hac : a = c
      · refine ⟨0, ?_, by simp [hac]⟩
        simp only [lastIndexOf]
        rw [if_neg hr, if_pos hac]
        rfl
      · exfalso
        apply h
        simp only [lastIndexOf]
        rw [if_neg hr, if_neg hac]

theorem maxPunctIndex_eq (l : List Char) :
    maxPunctIndex l =
      max (max (max (max (max (max (-1) (lastIndexOf l '.')) (lastIndexOf l '!'))
        (lastIndexOf l '?')) (lastIndexOf l ';')) (lastIndexOf l ':'))
        (lastIndexOf l ',') := rfl

theorem le_maxPunctIndex_of_punctAt (l : List Char) (k : Nat)
    (h : punctAt l k = true) : (k : Int) ≤ maxPunctIndex l := by
  unfold punctAt at h
  rcases hg : l[k]? with _ | c
  · rw [hg] at h
    simp at h
  · rw [hg] at h
    have hle := le_lastIndexOf_of_getElem? l c k hg
    rw [maxPunctIndex_eq]
    have hmem : c ∈ punctuationMarks := List.elem_iff.mp h
    simp only [punctuationMarks, List.mem_cons, List.not_mem_nil, or_false] at hmem
    rcases hmem with h | h | h | h | h | h <;> subst h <;> omega

theorem maxPunctIndex_cases (l : List Char) :
    maxPunctIndex l = -1 ∨
      ∃ i : Nat, maxPunctIndex l = (i : Int) ∧ punctAt l i = true := by
  rw [maxPunctIndex_eq]
  have hp : ∀ c : Char, c ∈ punctuationMarks → lastIndexOf l c ≠ -1 →
      ∃ i : Nat, lastIndexOf l c = (i : Int) ∧ punctAt l i = true := by
    intro c hc hne
    obtain ⟨i, hi, hget⟩ := lastIndexOf_getElem? l c hne
    refine ⟨i, hi, ?_⟩
    unfold punctAt
    rw [hget]
    exact List.elem_eq_true_of_mem hc
  have hstep : ∀ x : Int, ∀ c : Char, c ∈ punctuationMarks →
      (x = -1 ∨ ∃ i : Nat, x = (i : Int) ∧ punctAt l i = true) →
      (max x (lastIndexOf l c) = -1 ∨
        ∃ i : Nat, max x (lastIndexOf l c) = (i : Int) ∧ punctAt l i = true) := by
    intro x c hc hx
    rcases max_choice x (lastIndexOf l c) with hm | hm <;> rw [hm]
    · exact hx
    · by_cases hne : lastIndexOf l c = -1
      · left; exact hne
      · right; exact hp c hc hne
  have h1 := hstep (-1) '.' (by simp [punctuationMarks]) (Or.inl rfl)
  have h2 := hstep _ '!' (by simp [punctuationMarks]) h1
  have h3 := hstep _ '?' (by simp [punctuationMarks]) h2
  have h4 := hstep _ ';' (by simp [punctuationMarks]) h3
  have h5 := hstep _ ':' (by simp [punctuationMarks]) h4
  exact hstep _ ',' (by simp [punctuationMarks]) h5

theorem punctAt_lt_length (l : List Char) (i : Nat) (h : punctAt l i = true) :
    i < l.length := by
  unfold punctAt at h
  rcases hg : l[i]? with _ | c
  · rw [hg] at h; simp at h
  · exact (List.getElem?_eq_some_iff.mp hg).1

/-! ### Behaviour of `trimToLastPunctuation` -/

theorem trim_eq_of_le (text : List Char) (maxLength : Nat)
    (h : text.length ≤ maxLength) : trimToLastPunctuation text maxLength = text := by
  simp [trimToLastPunctuation, h]

theorem trim_eq_hardcut (text : List Char) (maxLength : Nat)
    (hlen : maxLength < text.length)
    (hno : ∀ j, j < maxLength → 0 < j → punctAt (text.take maxLength) j = false) :
    trimToLastPunctuation text maxLength = text.take maxLength := by
  have hle : maxPunctIndex (text.take maxLength) ≤ 0 := by
    rcases maxPunctIndex_cases (text.take maxLength) with h | ⟨i, hi, hp⟩
    · omega
    · have hilen : i < (text.take maxLength).length := punctAt_lt_length _ _ hp
      have : i < maxLength := by
        have := List.length_take_le maxLength text
        omega
      by_cases h0 : 0 < i
      · have := hno i this h0
        rw [this] at hp
        exact absurd hp (by simp)
      · have : i = 0 := by omega
        subst this
        rw [hi]
        omega
  unfold trimToLastPunctuation
  rw [if_neg (by omega)]
  simp only []
  rw [if_neg (by omega)]

theorem trim_eq_cut (text : List Char) (maxLength : Nat) (k : Nat)
    (hlen : maxLength < text.length)
    (hk : punctAt (text.take maxLength) k = true)
    (hpos : 0 < k)
    (hlast : ∀ j, j < maxLength → k < j → punctAt (text.take maxLength) j = false) :
    trimToLastPunctuation text maxLength = (text.take maxLength).take (k + 1) := by
  have heq : maxPunctIndex (text.take maxLength) = (k : Int) := by
    have hge := le_maxPunctIndex_of_punctAt _ k hk
    rcases maxPunctIndex_cases (text.take maxLength) with h | ⟨i, hi, hp⟩
    · omega
    · have hilen : i < (text.take maxLength).length := punctAt_lt_length _ _ hp
      have hiM : i < maxLength := by
        have := List.length_take_le maxLength text
        omega
      have : i ≤ k := by
        by_contra hik
        have := hlast i hiM (by omega)
        rw [this] at hp
        exact absurd hp (by simp)
      rw [hi] at hge ⊢
      have : i = k := by omega
      omega
  unfold trimToLastPunctuation
  rw [if_neg (by omega)]
  simp only []
  rw [heq]
  rw [if_pos (by positivity)]
  norm_num

/-! ## Facts about `processMessage` -/

theorem processMessage_skip_of_dedup (env : PollEnv) (db : List Record)
    (nomi : NomiInfo) (msg : RemoteMessage)
    (h : dedupExists db nomi.uuid msg.text = true) :
    processMessage env db nomi msg = (db, noEffects) := by
  unfold processMessage
  by_cases hs : msg.sent ≠ "nomi"
  · rw [if_pos hs]
  · rw [if_neg hs, if_pos h]

theorem processMessage_inserted_key (env : PollEnv) (db : List Record)
    (nomi : NomiInfo) (msg : RemoteMessage) (r : Record)
    (hr : r ∈ (processMessage env db nomi msg).2.inserted) :
    r.nomi_uuid = nomi.uuid ∧ r.message_text = msg.text ∧
    (processMessage env db nomi msg).1 = db ++ [r] := by
  rcases env with ⟨aiR, sOk, iOk⟩
  by_cases h1 : msg.sent ≠ "nomi"
  · simp [processMessage, h1, noEffects] at hr
  · by_cases h2 : dedupExists db nomi.uuid msg.text
    · simp [processMessage, h1, h2, noEffects] at hr
    · by_cases h3 : isQuestion msg.text
      · rcases aiR with _ | raw
        · simp [processMessage, h1, h2, h3] at hr
        · rcases sOk with _ | _
          · simp [processMessage, h1, h2, h3] at hr
          · rcases iOk with _ | _
            · simp [processMessage, h1, h2, h3] at hr
            · simp only [processMessage, h1, h2, h3] at hr ⊢
              simp at hr
              subst hr
              simp
      · rcases iOk with _ | _
        · simp [processMessage, h1, h2, h3, noEffects] at hr
        · simp only [processMessage, h1, h2, h3] at hr ⊢
          simp at hr
          subst hr
          simp

theorem dedupExists_append_self (db : List Record) (r : Record) (uuid : String)
    (text : List Char) (h1 : r.nomi_uuid = uuid) (h2 : r.message_text = text) :
    dedupExists (db ++ [r]) uuid text = true := by
  unfold dedupExists
  rw [List.any_append]
  simp [h1, h2]

/-- C1: a remote message whose `(characterId, raw text)` dedup key already
matches a record in the store is skipped entirely by the poll pass — no AI
call, no outbound send, no insert, and the store is unchanged; consequently
once an iteration has successfully inserted its record, re-observing the
same message on a later tick is a complete no-op, so at most one record and
one reply arise across ticks. -/
theorem c1_dedup_idempotent (env1 env2 : PollEnv) (db : List Record)
    (nomi : NomiInfo) (msg : RemoteMessage) :
    (dedupExists db nomi.uuid msg.text = true →
      processMessage env1 db nomi msg = (db, noEffects)) ∧
    ((processMessage env1 db nomi msg).2.inserted ≠ [] →
      processMessage env2 (processMessage env1 db nomi msg).1 nomi msg
        = ((processMessage env1 db nomi msg).1, noEffects)) := by
  constructor
  · exact processMessage_skip_of_dedup env1 db nomi msg
  · intro h
    obtain ⟨r, hr⟩ := List.exists_mem_of_ne_nil _ h
    obtain ⟨h1, h2, h3⟩ := processMessage_inserted_key env1 db nomi msg r hr
    apply processMessage_skip_of_dedup
    rw [h3]
    exact dedupExists_append_self db r nomi.uuid msg.text h1 h2

/-- Witness for C1: a stored "Hello there" record makes the pass skip the
same message, and a fresh "Hello there" is inserted once and then skipped
on the second tick. -/
theorem c1_dedup_idempotent_witness :
    (dedupExists [⟨"u1", "Paige", none, none, "Hello there".toList, "regular"⟩]
        "u1" "Hello there".toList = true ∧
      processMessage ⟨none, true, true⟩
          [⟨"u1", "Paige", none, none, "Hello there".toList, "regular"⟩]
          ⟨"u1", "Paige"⟩ ⟨"nomi", "Hello there".toList⟩
        = ([⟨"u1", "Paige", none, none, "Hello there".toList, "regular"⟩], noEffects)) ∧
    ((processMessage ⟨none, true, true⟩ [] ⟨"u1", "Paige"⟩
        ⟨"nomi", "Hello there".toList⟩).2.inserted ≠ [] ∧
      processMessage ⟨none, true, true⟩
          (processMessage ⟨none, true, true⟩ [] ⟨"u1", "Paige"⟩
            ⟨"nomi", "Hello there".toList⟩).1
          ⟨"u1", "Paige"⟩ ⟨"nomi", "Hello there".toList⟩
        = ((processMessage ⟨none, true, true⟩ [] ⟨"u1", "Paige"⟩
            ⟨"nomi", "Hello there".toList⟩).1, noEffects)) :=
  ⟨⟨by decide,
    (c1_dedup_idempotent ⟨none, true, true⟩ ⟨none, true, true⟩
      [⟨"u1", "Paige", none, none, "Hello there".toList, "regular"⟩]
      ⟨"u1", "Paige"⟩ ⟨"nomi", "Hello there".toList⟩).1 (by decide)⟩,
   ⟨by decide,
    (c1_dedup_idempotent ⟨none, true, true⟩ ⟨none, true, true⟩ []
      ⟨"u1", "Paige"⟩ ⟨"nomi", "Hello there".toList⟩).2 (by decide)⟩⟩

/-- C10: every record the poll pass inserts (question and regular branch
alike) stores `message_text` equal to the raw text of the handled message
and `nomi_uuid` equal to the character id — the dedup key fields — and the
resulting store detects the message as already processed. -/
theorem c10_inserted_matches_dedup_key (env : PollEnv) (db : List Record)
    (nomi : NomiInfo) (msg : RemoteMessage) (r : Record)
    (hr : r ∈ (processMessage env db nomi msg).2.inserted) :
    r.message_text = msg.text ∧ r.nomi_uuid = nomi.uuid ∧
    dedupExists (processMessage env db nomi msg).1 nomi.uuid msg.text = true := by
  obtain ⟨h1, h2, h3⟩ := processMessage_inserted_key env db nomi msg r hr
  refine ⟨h2, h1, ?_⟩
  rw [h3]
  exact dedupExists_append_self db r nomi.uuid msg.text h1 h2

/-- Witness for C10: the regular-branch insert for "Hello there" carries
the dedup key fields and is found by a later dedup lookup. -/
theorem c10_inserted_matches_dedup_key_witness :
    (⟨"u1", "Paige", none, none, "Hello there".toList, "regular"⟩ : Record)
        ∈ (processMessage ⟨none, true, true⟩ [] ⟨"u1", "Paige"⟩
            ⟨"nomi", "Hello there".toList⟩).2.inserted ∧
      ((⟨"u1", "Paige", none, none, "Hello there".toList, "regular"⟩ : Record).message_text
          = "Hello there".toList ∧
        (⟨"u1", "Paige", none, none, "Hello there".toList, "regular"⟩ : Record).nomi_uuid
          = "u1" ∧
        dedupExists (processMessage ⟨none, true, true⟩ [] ⟨"u1", "Paige"⟩
            ⟨"nomi", "Hello there".toList⟩).1 "u1" "Hello there".toList = true) :=
  ⟨by decide,
   c10_inserted_matches_dedup_key ⟨none, true, true⟩ [] ⟨"u1", "Paige"⟩
     ⟨"nomi", "Hello there".toList⟩
     ⟨"u1", "Paige", none, none, "Hello there".toList, "regular"⟩ (by decide)⟩

/-- The classification test unfolded to its observable content. -/
theorem isQuestion_iff (text : List Char) :
    isQuestion text = true ↔ (text ≠ [] ∧ (jsTrim text).getLast? = some '?') := by
  simp [isQuestion, endsWithChar]

/-- C2 (amended): the poll pass performs no inner-monologue stripping; a
non-deduplicated character-origin message takes the AI/question path iff
its raw text is nonempty and, trimmed of surrounding whitespace, ends with
a question mark. -/
theorem c2_classification_on_raw_text (env : PollEnv) (db : List Record)
    (nomi : NomiInfo) (msg : RemoteMessage) (h1 : msg.sent = "nomi")
    (h2 : dedupExists db nomi.uuid msg.text = false) :
    ((processMessage env db nomi msg).2.aiCalls = 1
      ↔ (msg.text ≠ [] ∧ (jsTrim msg.text).getLast? = some '?')) := by
  rcases env with ⟨aiR, sOk, iOk⟩
  by_cases h3 : isQuestion msg.text
  · rw [iff_true_right ((isQuestion_iff msg.text).mp h3)]
    rcases aiR with _ | raw
    · simp [processMessage, h1, h2, h3]
    · rcases sOk with _ | _
      · simp [processMessage, h1, h2, h3]
      · rcases iOk with _ | _ <;> simp [processMessage, h1, h2, h3]
  · rw [iff_false_right (fun hq => h3 ((isQuestion_iff msg.text).mpr hq))]
    rcases iOk with _ | _ <;>
      simp [processMessage, h1, h2, h3, noEffects]

/-- Witness for C2 (amended): "Nice day*thinking*" from a fresh store takes
the regular path (no AI call), matching the raw-text classification. -/
theorem c2_classification_on_raw_text_witness :
    ((⟨"nomi", "Nice day*thinking*".toList⟩ : RemoteMessage).sent = "nomi" ∧
      dedupExists [] "u1" "Nice day*thinking*".toList = false) ∧
    ((processMessage ⟨none, true, true⟩ [] ⟨"u1", "Rex"⟩
        ⟨"nomi", "Nice day*thinking*".toList⟩).2.aiCalls = 1
      ↔ ("Nice day*thinking*".toList ≠ [] ∧
          (jsTrim "Nice day*thinking*".toList).getLast? = some '?')) :=
  ⟨⟨rfl, by decide⟩,
   c2_classification_on_raw_text ⟨none, true, true⟩ [] ⟨"u1", "Rex"⟩
     ⟨"nomi", "Nice day*thinking*".toList⟩ rfl (by decide)⟩

/-- Counterexample for C2 as stated: the spec-modelled strip-then-classify
predicate and the code's raw-text classifier disagree at "Hi? *waves*" —
stripping removes the trailing monologue and leaves text ending in a
question mark, yet the code classifies the message as not a question.  The
strip model itself is validated against the spec's own example. -/
theorem c2_counterexample :
    stripInnerMonologue "Nice day*thinking*".toList = "Nice day".toList ∧
    isQuestion "Hi? *waves*".toList = false ∧
    specIsQuestion "Hi? *waves*".toList = true := by decide

/-- C4 (amended): in the backend poll pass a non-question, non-deduplicated
character message triggers no outbound send and no AI call; a record with
`message_type` regular and neither question nor answer is inserted without
any send preceding it.  In the UI poll variant the fixed prompt is sent,
but the saved row ignores the send outcome and carries `message_type`
ai_response with both question and answer populated. -/
theorem c4_regular_branch (env : PollEnv) (db : List Record) (nomi : NomiInfo)
    (msg : RemoteMessage) (h1 : msg.sent = "nomi")
    (h2 : dedupExists db nomi.uuid msg.text = false)
    (h3 : isQuestion msg.text = false) (h4 : env.insertOk = true) :
    processMessage env db nomi msg
      = (db ++ [⟨nomi.uuid, nomi.name, none, none, msg.text, "regular"⟩],
          ⟨0, [], [⟨nomi.uuid, nomi.name, none, none, msg.text, "regular"⟩]⟩) ∧
    uiNonQuestionStep nomi msg.text
      = (askPrompt,
          ⟨nomi.uuid, nomi.name, some msg.text, some askPrompt, msg.text,
            "ai_response"⟩) := by
  constructor
  · rcases env with ⟨aiR, sOk, iOk⟩
    simp only at h4
    subst h4
    simp [processMessage, h1, h2, h3]
  · rfl

/-- Witness for C4 (amended): the Rex "Hello there" scenario. -/
theorem c4_regular_branch_witness :
    ((⟨"nomi", "Hello there".toList⟩ : RemoteMessage).sent = "nomi" ∧
      dedupExists [] "u2" "Hello there".toList = false ∧
      isQuestion "Hello there".toList = false ∧
      (⟨none, false, true⟩ : PollEnv).insertOk = true) ∧
    (processMessage ⟨none, false, true⟩ [] ⟨"u2", "Rex"⟩
        ⟨"nomi", "Hello there".toList⟩
      = ([⟨"u2", "Rex", none, none, "Hello there".toList, "regular"⟩],
          ⟨0, [], [⟨"u2", "Rex", none, none, "Hello there".toList, "regular"⟩]⟩) ∧
      uiNonQuestionStep ⟨"u2", "Rex"⟩ "Hello there".toList
        = (askPrompt,
            ⟨"u2", "Rex", some "Hello there".toList, some askPrompt,
              "Hello there".toList, "ai_response"⟩)) :=
  ⟨⟨rfl, by decide, by decide, rfl⟩,
   by
    have h := c4_regular_branch ⟨none, false, true⟩ [] ⟨"u2", "Rex"⟩
      ⟨"nomi", "Hello there".toList⟩ rfl (by decide) (by decide) rfl
    simpa using h⟩

/-- Counterexample for C4 as stated: on the Rex "Hello there" input the
backend pass sends nothing at all (even though a record is inserted, and
even though the send environment reports failure, so the insert is not
gated on send success), and the UI variant's saved row has `message_type`
ai_response with the question field set — not a regular row without
extracted question. -/
theorem c4_counterexample :
    (processMessage ⟨none, false, true⟩ [] ⟨"u2", "Rex"⟩
        ⟨"nomi", "Hello there".toList⟩).2.sends = [] ∧
    (processMessage ⟨none, false, true⟩ [] ⟨"u2", "Rex"⟩
        ⟨"nomi", "Hello there".toList⟩).2.inserted ≠ [] ∧
    (uiNonQuestionStep ⟨"u2", "Rex"⟩ "Hello there".toList).2.message_type
        ≠ "regular" ∧
    (uiNonQuestionStep ⟨"u2", "Rex"⟩ "Hello there".toList).2.question ≠ none := by
  refine ⟨by decide, by decide, ?_, ?_⟩ <;> decide

/-! ## Concrete long inputs for the truncation claims -/

theorem punctAt_of_getElem?_some {l : List Char} {i : Nat} {c : Char}
    (h : l[i]? = some c) : punctAt l i = punctuationMarks.contains c := by
  unfold punctAt
  rw [h]

theorem punctAt_of_getElem?_none {l : List Char} {i : Nat}
    (h : l[i]? = none) : punctAt l i = false := by
  unfold punctAt
  rw [h]

theorem punctAt_cons_replicate (c : Char) (n j : Nat) (hj : 0 < j) :
    punctAt (c :: List.replicate n 'a') j = false := by
  cases j with
  | zero => omega
  | succ m =>
    by_cases hm : m < n
    · rw [punctAt_of_getElem?_some (c := 'a') (by simp [List.getElem?_replicate, hm])]
      decide
    · rw [punctAt_of_getElem?_none (by simp [List.getElem?_replicate, hm])]

theorem take_800_dot_replicate :
    ('.' :: List.replicate 800 'a').take 800 = '.' :: List.replicate 799 'a' := by
  rw [show (800 : Nat) = 799 + 1 by rfl]
  rw [List.take_succ_cons]
  rw [List.take_replicate]
  rfl

theorem dot_replicate_length : ('.' :: List.replicate 800 'a').length = 801 := by
  rw [List.length_cons, List.length_replicate]

theorem sample850_take_800 :
    sample850.take 800 = List.replicate 779 'a' ++ '.' :: List.replicate 20 'b' := by
  unfold sample850
  rw [show (800 : Nat) = (List.replicate 779 'a').length + 21 by
    rw [List.length_replicate]]
  rw [List.take_append]
  rw [show (21 : Nat) = 20 + 1 by rfl, List.take_succ_cons, List.take_replicate]
  rfl

theorem sample850_length : sample850.length = 850 := by
  unfold sample850
  rw [List.length_append, List.length_replicate, List.length_cons,
    List.length_replicate]

theorem sample850_punctAt_779 : punctAt (sample850.take 800) 779 = true := by
  rw [sample850_take_800]
  rw [punctAt_of_getElem?_some (c := '.') ?_]
  · decide
  · have hlen : (List.replicate 779 'a').length ≤ 779 := by rw [List.length_replicate]
    rw [List.getElem?_append_right hlen, List.length_replicate]
    rw [show (779 - 779 : Nat) = 0 by omega]
    rfl

theorem sample850_punctAt_after (j : Nat) (hj : j < 800) (h779 : 779 < j) :
    punctAt (sample850.take 800) j = false := by
  rw [sample850_take_800]
  obtain ⟨m, rfl⟩ : ∃ m, j = 780 + m := ⟨j - 780, by omega⟩
  rw [punctAt_of_getElem?_some (c := 'b') ?_]
  · decide
  · have hlen : (List.replicate 779 'a').length ≤ 780 + m := by
      rw [List.length_replicate]; omega
    rw [List.getElem?_append_right hlen, List.length_replicate]
    rw [show (780 + m - 779 : Nat) = m + 1 by omega]
    rw [List.getElem?_cons_succ, List.getElem?_replicate]
    rw [if_pos (by omega)]

theorem sample850_take_780 :
    (sample850.take 800).take 780 = List.replicate 779 'a' ++ ['.'] := by
  rw [sample850_take_800]
  rw [show (780 : Nat) = (List.replicate 779 'a').length + 1 by
    rw [List.length_replicate]]
  rw [List.take_append]
  rfl

/-- C3 (amended): on input within 800 characters the truncation returns the
text unmodified; on longer input it cuts inclusively at the last
punctuation mark of the 800-character prefix provided that mark sits at a
strictly positive index; when the prefix holds no mark at a positive index
(none at all, or only at the very first character) it hard-cuts at 800. -/
theorem c3_truncation (text : List Char) :
    (text.length ≤ 800 → trimToLastPunctuation text 800 = text) ∧
    (∀ k : Nat, 800 < text.length → 0 < k → punctAt (text.take 800) k = true →
      (∀ j, j < 800 → k < j → punctAt (text.take 800) j = false) →
      trimToLastPunctuation text 800 = (text.take 800).take (k + 1)) ∧
    (800 < text.length → (∀ j, j < 800 → 0 < j → punctAt (text.take 800) j = false) →
      trimToLastPunctuation text 800 = text.take 800) :=
  ⟨trim_eq_of_le text 800,
   fun k hlen hpos hk hlast => trim_eq_cut text 800 k hlen hk hpos hlast,
   trim_eq_hardcut text 800⟩

/-- Witness for C3 (amended): a 3-character answer is returned unmodified;
the 850-character sample with its only mark at the 780th character is cut
to exactly its first 780 characters; and a mark sitting only at the very
first character yields the 800-character hard cut. -/
theorem c3_truncation_witness :
    (("Hi.".toList.length ≤ 800) ∧
      trimToLastPunctuation "Hi.".toList 800 = "Hi.".toList) ∧
    ((800 < sample850.length ∧ (0 : Nat) < 779 ∧
        punctAt (sample850.take 800) 779 = true ∧
        (∀ j, j < 800 → 779 < j → punctAt (sample850.take 800) j = false)) ∧
      trimToLastPunctuation sample850 800 = (sample850.take 800).take (779 + 1)) ∧
    ((800 < ('.' :: List.replicate 800 'a').length ∧
        (∀ j, j < 800 → 0 < j →
          punctAt (('.' :: List.replicate 800 'a').take 800) j = false)) ∧
      trimToLastPunctuation ('.' :: List.replicate 800 'a') 800
        = ('.' :: List.replicate 800 'a').take 800) :=
  ⟨⟨by decide, (c3_truncation "Hi.".toList).1 (by decide)⟩,
   ⟨⟨by rw [sample850_length]; omega, by omega, sample850_punctAt_779,
      fun j hj h779 => sample850_punctAt_after j hj h779⟩,
    (c3_truncation sample850).2.1 779 (by rw [sample850_length]; omega) (by omega)
      sample850_punctAt_779 (fun j hj h779 => sample850_punctAt_after j hj h779)⟩,
   ⟨⟨by rw [dot_replicate_length]; omega,
      fun j hj h0 => by
        rw [take_800_dot_replicate]
        exact punctAt_cons_replicate '.' 799 j h0⟩,
    (c3_truncation ('.' :: List.replicate 800 'a')).2.2
      (by rw [dot_replicate_length]; omega)
      (fun j hj h0 => by
        rw [take_800_dot_replicate]
        exact punctAt_cons_replicate '.' 799 j h0)⟩⟩

/-- Counterexample for C3 as stated: an 801-character input whose only
punctuation mark is its very first character.  The claim's rule (cut at the
last mark at or before the limit, inclusive) demands the one-character
result, but the code requires a strictly positive mark index and therefore
hard-cuts to 800 characters. -/
theorem c3_counterexample :
    trimToLastPunctuation ('.' :: List.replicate 800 'a') 800
      = '.' :: List.replicate 799 'a' ∧
    ('.' :: List.replicate 799 'a' : List Char) ≠ ['.'] := by
  constructor
  · rw [← take_800_dot_replicate]
    apply trim_eq_hardcut
    · rw [dot_replicate_length]; omega
    · intro j hj h0
      rw [take_800_dot_replicate]
      exact punctAt_cons_replicate '.' 799 j h0
  · intro h
    have := congrArg List.length h
    rw [List.length_cons, List.length_replicate] at this
    simp at this

/-- C9: on input longer than 800 characters whose 800-character prefix
holds a punctuation mark at index 0 and nowhere else, `trimToLastPunctuation`
returns the full 800-character hard cut — the punctuation-inclusive cut
applies only to marks at strictly positive indices. -/
theorem c9_mark_at_zero_hardcut (text : List Char)
    (hlen : 800 < text.length)
    (h0 : punctAt (text.take 800) 0 = true)
    (hrest : ∀ j, j < 800 → 0 < j → punctAt (text.take 800) j = false) :
    trimToLastPunctuation text 800 = text.take 800 :=
  trim_eq_hardcut text 800 hlen hrest

/-- Witness for C9: the leading-dot 801-character input. -/
theorem c9_mark_at_zero_hardcut_witness :
    (800 < ('.' :: List.replicate 800 'a').length ∧
      punctAt (('.' :: List.replicate 800 'a').take 800) 0 = true ∧
      (∀ j, j < 800 → 0 < j →
        punctAt (('.' :: List.replicate 800 'a').take 800) j = false)) ∧
    trimToLastPunctuation ('.' :: List.replicate 800 'a') 800
      = ('.' :: List.replicate 800 'a').take 800 :=
  ⟨⟨by rw [dot_replicate_length]; omega,
    by
      rw [take_800_dot_replicate]
      rw [punctAt_of_getElem?_some List.getElem?_cons_zero]
      decide,
    fun j hj h0 => by
      rw [take_800_dot_replicate]
      exact punctAt_cons_replicate '.' 799 j h0⟩,
   c9_mark_at_zero_hardcut ('.' :: List.replicate 800 'a')
     (by rw [dot_replicate_length]; omega)
     (by
       rw [take_800_dot_replicate]
       rw [punctAt_of_getElem?_some List.getElem?_cons_zero]
       decide)
     (fun j hj h0 => by
       rw [take_800_dot_replicate]
       exact punctAt_cons_replicate '.' 799 j h0)⟩

end NomiSpeak

namespace NomiSpeak
namespace Bridge

/-! ## Facts about the room handlers -/

theorem findRoom_mem (s : RemoteState) (roomId : Nat) (room : Room)
    (h : findRoom s roomId = some room) : room ∈ s.rooms ∧ room.uuid = roomId := by
  unfold findRoom at h
  constructor
  · exact List.mem_of_find?_eq_some h
  · have := List.find?_some h
    simpa using this

/-- C5: a successful `remove-nomi-from-room` on a room with at least two
members yields a room under a new id whose member set is the old set minus
the removed character and whose name and backchanneling flag are unchanged,
and the old room id no longer resolves afterwards.  (Freshness of the new
id relies on the spec-modelled remote store, which never reuses ids.) -/
theorem c5_remove_member_recreates (env : RemoveEnv) (s : RemoteState)
    (roomId : Nat) (nomiUuid : String) (room newRoom : Room) (s' : RemoteState)
    (hwf : ∀ r ∈ s.rooms, r.uuid < s.nextId)
    (hfind : findRoom s roomId = some room)
    (hmem : 2 ≤ room.nomis.length)
    (hres : removeNomiFromRoom env s roomId nomiUuid
      = (RemoveResult.ok newRoom, s')) :
    newRoom.uuid ≠ roomId ∧
    (∀ u, u ∈ newRoom.nomis ↔ (u ∈ room.nomis ∧ u ≠ nomiUuid)) ∧
    newRoom.name = room.name ∧
    newRoom.backchannelingEnabled = room.backchannelingEnabled ∧
    findRoom s' roomId = none := by
  have hroomId : room.uuid = roomId := (findRoom_mem s roomId room hfind).2
  have hlt : roomId < s.nextId := by
    have := hwf room (findRoom_mem s roomId room hfind).1
    omega
  unfold removeNomiFromRoom at hres
  rw [hfind] at hres
  dsimp only at hres
  by_cases hempty : (room.nomis.filter (fun u => u ≠ nomiUuid)).isEmpty
  · rw [if_pos hempty] at hres
    exact absurd (congrArg Prod.fst hres) (by simp)
  · rw [if_neg hempty] at hres
    rcases env with ⟨dOk, cOk⟩
    rcases dOk with _ | _
    · exact absurd (congrArg Prod.fst hres) (by simp)
    · rcases cOk with _ | _
      · exact absurd (congrArg Prod.fst hres) (by simp)
      · simp only [Bool.not_true, Bool.false_eq_true, if_false,
          remoteCreateRoom, remoteDeleteRoom] at hres
        obtain ⟨hnew, hs'⟩ := Prod.mk.injEq .. ▸ hres
        have hnewRoom : newRoom
            = ⟨s.nextId, room.name, room.backchannelingEnabled,
                some (room.note.getD "Inquisitorium room for automated Q&A"),
                room.nomis.filter (fun u => u ≠ nomiUuid)⟩ := by
          cases hnew
          rfl
        subst hnewRoom
        refine ⟨by simp; omega, ?_, rfl, rfl, ?_⟩
        · intro u
          simp [List.mem_filter]
        · subst hs'
          unfold findRoom
          simp only []
          rw [List.find?_eq_none]
          intro r hr
          simp only [List.mem_append, List.mem_filter, List.mem_singleton] at hr
          rcases hr with ⟨hmem', hne⟩ | hr
          · simpa using hne
          · subst hr
            simp
            omega

/-- Witness for C5: removing "a" from a two-member room recreates the room
under the fresh id 1 with only "b" left. -/
theorem c5_remove_member_recreates_witness :
    ((∀ r ∈ (⟨[⟨0, "Inquisitorium", true, none, ["a", "b"]⟩], 1⟩ :
        RemoteState).rooms, r.uuid < 1) ∧
      findRoom ⟨[⟨0, "Inquisitorium", true, none, ["a", "b"]⟩], 1⟩ 0
        = some ⟨0, "Inquisitorium", true, none, ["a", "b"]⟩ ∧
      2 ≤ (⟨0, "Inquisitorium", true, none, ["a", "b"]⟩ : Room).nomis.length ∧
      removeNomiFromRoom ⟨true, true⟩
          ⟨[⟨0, "Inquisitorium", true, none, ["a", "b"]⟩], 1⟩ 0 "a"
        = (RemoveResult.ok
            ⟨1, "Inquisitorium", true,
              some "Inquisitorium room for automated Q&A", ["b"]⟩,
            ⟨[⟨1, "Inquisitorium", true,
              some "Inquisitorium room for automated Q&A", ["b"]⟩], 2⟩)) ∧
    ((⟨1, "Inquisitorium", true,
        some "Inquisitorium room for automated Q&A", ["b"]⟩ : Room).uuid ≠ 0 ∧
      (∀ u, u ∈ (⟨1, "Inquisitorium", true,
          some "Inquisitorium room for automated Q&A", ["b"]⟩ : Room).nomis ↔
        (u ∈ (⟨0, "Inquisitorium", true, none, ["a", "b"]⟩ : Room).nomis ∧
          u ≠ "a")) ∧
      (⟨1, "Inquisitorium", true,
        some "Inquisitorium room for automated Q&A", ["b"]⟩ : Room).name
        = "Inquisitorium" ∧
      (⟨1, "Inquisitorium", true,
        some "Inquisitorium room for automated Q&A", ["b"]⟩ : Room).backchannelingEnabled
        = true ∧
      findRoom ⟨[⟨1, "Inquisitorium", true,
        some "Inquisitorium room for automated Q&A", ["b"]⟩], 2⟩ 0 = none) :=
  ⟨⟨by decide, by decide, by decide, by decide⟩,
   c5_remove_member_recreates ⟨true, true⟩
     ⟨[⟨0, "Inquisitorium", true, none, ["a", "b"]⟩], 1⟩ 0 "a"
     ⟨0, "Inquisitorium", true, none, ["a", "b"]⟩
     ⟨1, "Inquisitorium", true,
       some "Inquisitorium room for automated Q&A", ["b"]⟩
     ⟨[⟨1, "Inquisitorium", true,
       some "Inquisitorium room for automated Q&A", ["b"]⟩], 2⟩
     (by decide) (by decide) (by decide) (by decide)⟩

/-- C6: when the character is the sole member (removal would empty the
member set), `remove-nomi-from-room` fails with the cannot-remove-last
error before issuing the remote delete, leaving the remote store exactly as
it was — for every delete/create outcome environment. -/
theorem c6_last_member_guard (env : RemoveEnv) (s : RemoteState) (roomId : Nat)
    (nomiUuid : String) (room : Room)
    (hfind : findRoom s roomId = some room)
    (hlast : room.nomis.filter (fun u => u ≠ nomiUuid) = []) :
    removeNomiFromRoom env s roomId nomiUuid = (RemoveResult.errLastNomi, s) := by
  unfold removeNomiFromRoom
  rw [hfind]
  dsimp only
  rw [if_pos (by rw [hlast]; rfl)]

/-- Witness for C6: removing the sole member "a" errors and leaves the
store untouched under an environment whose remote calls would succeed. -/
theorem c6_last_member_guard_witness :
    (findRoom ⟨[⟨0, "Inquisitorium", true, none, ["a"]⟩], 1⟩ 0
        = some ⟨0, "Inquisitorium", true, none, ["a"]⟩ ∧
      (⟨0, "Inquisitorium", true, none, ["a"]⟩ : Room).nomis.filter
        (fun u => u ≠ "a") = []) ∧
    removeNomiFromRoom ⟨true, true⟩
        ⟨[⟨0, "Inquisitorium", true, none, ["a"]⟩], 1⟩ 0 "a"
      = (RemoveResult.errLastNomi,
          ⟨[⟨0, "Inquisitorium", true, none, ["a"]⟩], 1⟩) :=
  ⟨⟨by decide, by decide⟩,
   c6_last_member_guard ⟨true, true⟩
     ⟨[⟨0, "Inquisitorium", true, none, ["a"]⟩], 1⟩ 0 "a"
     ⟨0, "Inquisitorium", true, none, ["a"]⟩ (by decide) (by decide)⟩

/-- C7 (amended): when both the room-addressed and the direct-character
sends fail, the single `upstream_error` response carries the fallback
call's status code and body; the primary call's status appears nowhere in
the response (it is logged only), as shown by the response being
independent of the primary outcome. -/
theorem c7_double_failure_fallback_status (primary primary' fallback : HttpResp)
    (hp : primary.ok = false) (hp' : primary'.ok = false)
    (hf : fallback.ok = false) :
    sendMessageHandler primary fallback
      = ⟨false, some "upstream_error", some fallback.status, some fallback.body⟩ ∧
    sendMessageHandler primary fallback = sendMessageHandler primary' fallback := by
  unfold sendMessageHandler
  rw [hp, hp', hf]
  simp

/-- Witness for C7 (amended): primary 500 and fallback 404 produce the same
response as primary 403 and fallback 404 — only 404 is reported. -/
theorem c7_double_failure_fallback_status_witness :
    ((⟨false, 500, "p"⟩ : HttpResp).ok = false ∧
      (⟨false, 403, "q"⟩ : HttpResp).ok = false ∧
      (⟨false, 404, "f"⟩ : HttpResp).ok = false) ∧
    (sendMessageHandler ⟨false, 500, "p"⟩ ⟨false, 404, "f"⟩
        = ⟨false, some "upstream_error", some 404, some "f"⟩ ∧
      sendMessageHandler ⟨false, 500, "p"⟩ ⟨false, 404, "f"⟩
        = sendMessageHandler ⟨false, 403, "q"⟩ ⟨false, 404, "f"⟩) :=
  ⟨⟨rfl, rfl, rfl⟩,
   c7_double_failure_fallback_status ⟨false, 500, "p"⟩ ⟨false, 403, "q"⟩
     ⟨false, 404, "f"⟩ rfl rfl rfl⟩

/-- Counterexample for C7 as stated: with the primary send failing with
status 500 and the fallback with 404, the combined error response records
only 404; replacing the primary status by 403 leaves the response
unchanged, so the primary status code is not carried in the response. -/
theorem c7_counterexample :
    sendMessageHandler ⟨false, 500, "p"⟩ ⟨false, 404, "f"⟩
      = ⟨false, some "upstream_error", some 404, some "f"⟩ ∧
    sendMessageHandler ⟨false, 500, "p"⟩ ⟨false, 404, "f"⟩
      = sendMessageHandler ⟨false, 403, "q"⟩ ⟨false, 404, "f"⟩ ∧
    (⟨false, some "upstream_error", some 404, some "f"⟩ :
      SendMessageResponse).upstreamStatus ≠ some 500 := by
  refine ⟨by decide, by decide, by decide⟩

/-- C8: `get-room-messages` answers HTTP 200 on every path; when the
primary endpoint fails it serves the fallback result, and when both fail it
degrades to an empty message list instead of propagating an error. -/
theorem c8_history_fetch_never_errors (primary fallback : FetchOutcome) :
    (getRoomMessagesHandler primary fallback).status = 200 ∧
    (primary.ok = false → fallback.ok = true →
      (getRoomMessagesHandler primary fallback).messages = fallback.messages) ∧
    (primary.ok = false → fallback.ok = false →
      getRoomMessagesHandler primary fallback = ⟨200, []⟩) := by
  unfold getRoomMessagesHandler
  refine ⟨?_, ?_, ?_⟩
  · rcases primary with ⟨_ | _, pm⟩ <;> rcases fallback with ⟨_ | _, fm⟩ <;> simp
  · intro hp hf
    rw [hp, hf]
    simp
  · intro hp hf
    rw [hp, hf]
    simp

/-- Witness for C8: with both endpoints down the handler returns a 200
response carrying no messages. -/
theorem c8_history_fetch_never_errors_witness :
    ((⟨false, ["x"]⟩ : FetchOutcome).ok = false ∧
      (⟨false, []⟩ : FetchOutcome).ok = false) ∧
    (getRoomMessagesHandler ⟨false, ["x"]⟩ ⟨false, []⟩).status = 200 ∧
    getRoomMessagesHandler ⟨false, ["x"]⟩ ⟨false, []⟩ = ⟨200, []⟩ :=
  ⟨⟨rfl, rfl⟩,
   (c8_history_fetch_never_errors ⟨false, ["x"]⟩ ⟨false, []⟩).1,
   (c8_history_fetch_never_errors ⟨false, ["x"]⟩ ⟨false, []⟩).2.2 rfl rfl⟩

end Bridge
end NomiSpeak
